import Mathlib

/-
  Verification development for cili's cleanup module (src/cili/cleanup.py).

  The module cleans eye-tracker sample tables: it finds untrustworthy
  intervals (EyeLink blink events and saccades containing blinks), optionally
  extends their end boundary with a windowed z-scored-gradient search
  (adjust_eyelink_recov_idxs), expands intervals to sample indices
  (ev_row_idxs) and masks or interpolates the designated cells.

  Shallow embedding conventions:
  * Sample-table time keys, onsets and durations are integers (ℤ).
  * Floating-point channel values are modelled by `RVal`: either an exact
    rational or the missing-value sentinel NaN.  All arithmetic propagates
    NaN, and every ordered comparison involving NaN is false, matching IEEE
    semantics as used by numpy/pandas in this code.  Division by zero yields
    NaN: the only division in the pipeline is the z-score division by the
    standard deviation of the very data being scored, so a zero divisor
    implies a zero (or NaN) numerator (0/0 is NaN in numpy as well); the
    nonzero/0 = ±inf case is unreachable, and ±inf compares with < exactly
    like NaN does in the one comparison the code performs.
  * Fallible Python code (KeyError / IndexError / ValueError) is modelled
    with Option: `none` is an uncaught exception escaping the call.
  * The in-place duration write of adjust_eyelink_recov_idxs is modelled by
    returning the updated event list; object identity, where a claim is
    about it, is modelled with an explicit store (EvStore below).
-/

/-- A numpy float value: an exact rational, or NaN. -/
inductive RVal
  | nan : RVal
  | val : ℚ → RVal
deriving DecidableEq

/-- NaN-propagating addition. -/
def RVal.add : RVal → RVal → RVal
  | RVal.val a, RVal.val b => RVal.val (a + b)
  | _, _ => RVal.nan

/-- NaN-propagating subtraction. -/
def RVal.sub : RVal → RVal → RVal
  | RVal.val a, RVal.val b => RVal.val (a - b)
  | _, _ => RVal.nan

/-- NaN-propagating multiplication. -/
def RVal.mul : RVal → RVal → RVal
  | RVal.val a, RVal.val b => RVal.val (a * b)
  | _, _ => RVal.nan

/-- NaN-propagating division; division by zero gives NaN (see header note:
only 0/0 is reachable through this pipeline, and numpy's 0/0 is NaN). -/
def RVal.div : RVal → RVal → RVal
  | RVal.val a, RVal.val b => if b = 0 then RVal.nan else RVal.val (a / b)
  | _, _ => RVal.nan

/-- Python list indexing `l[i]`, supporting negative indices; `none` is an
IndexError. -/
def pyIdx {α : Type} (l : List α) (i : ℤ) : Option α :=
  if i < 0 then
    if 0 ≤ i + l.length then l.get? (i + l.length).toNat else none
  else l.get? i.toNat

/-- Clamp a Python slice bound into [0, n]. -/
def pyBound (n : ℕ) (i : ℤ) : ℕ :=
  if i < 0 then (max (i + n) 0).toNat else (min i (n : ℤ)).toNat

/-- Python slice `l[s:e]` with possibly negative bounds. -/
def pySlice {α : Type} (l : List α) (s e : ℤ) : List α :=
  let n := l.length
  let s' := pyBound n s
  let e' := pyBound n e
  (l.take e').drop s'

/-- Position of the first occurrence of `x` in `l`, as
`pandas.Index.get_loc`; `none` is a KeyError.  (The sample index is unique
by the data-model invariant, so the first occurrence is the occurrence.) -/
def getLoc (l : List ℤ) (x : ℤ) : Option ℕ :=
  l.findIdx? (fun y => y == x)

/-- `numpy.searchsorted(l, x, side="right")` on the (sorted, per the
data-model invariant) sample index: the number of entries ≤ x. -/
def searchSortedRight (l : List ℤ) (x : ℤ) : ℕ :=
  l.countP (fun y => y ≤ x)

/-- `numpy.argmax` over a list of booleans: index of the first `true`, and 0
when all entries are `false`.  (The caller guards the empty list, where
numpy raises ValueError.) -/
def argmaxBool (l : List Bool) : ℕ :=
  (l.findIdx? (fun b => b)).getD 0

/-- `numpy.mean`: NaN on the empty list, NaN-propagating otherwise. -/
def npMean (l : List RVal) : RVal :=
  if l.length = 0 then RVal.nan
  else RVal.div (l.foldr RVal.add (RVal.val 0)) (RVal.val l.length)

/-- Population variance `mean ((x - mean l)^2)`, i.e. the square of
`numpy.std`; NaN-propagating. -/
def npVariance (l : List RVal) : RVal :=
  npMean (l.map (fun x => RVal.mul (RVal.sub x (npMean l)) (RVal.sub x (npMean l))))

/-- Whether `abs ((x - m) / sqrt v) < t`, for `m` the mean and `v` the
variance of the smoothed gradient series — the only use the code makes of
the z-scored series is this comparison against z_thresh.  Rendered over
rationals: when `v > 0` and `t > 0` the comparison is equivalent to
`(x - m)^2 < t^2 * v`; when `v = 0` every value of the series equals `m`,
so the z-score is numpy's 0/0 = NaN and the comparison is false (and for a
hypothetical nonzero numerator the quotient would be ±inf, also compared
false); any NaN input compares false. -/
def zBelowB (m v x : RVal) (t : ℚ) : Bool :=
  match m, v, x with
  | RVal.val mq, RVal.val vq, RVal.val xq =>
    if 0 < vq then decide (0 < t) && decide ((xq - mq) ^ 2 < t ^ 2 * vq)
    else false
  | _, _, _ => false

/-- `numpy.gradient` of a 1-D array (unit spacing): one-sided differences at
the edges, central differences inside.  Callers check length ≥ 2 (numpy
raises below that). -/
def npGradient (l : List RVal) : List RVal :=
  let n := l.length
  (List.range n).map (fun i =>
    if i = 0 then RVal.sub (l.getD 1 RVal.nan) (l.getD 0 RVal.nan)
    else if i = n - 1 then RVal.sub (l.getD (n - 1) RVal.nan) (l.getD (n - 2) RVal.nan)
    else RVal.div (RVal.sub (l.getD (i + 1) RVal.nan) (l.getD (i - 1) RVal.nan)) (RVal.val 2))

/-- `pandas.Series.rolling(window=k).mean()`: entry `i` is the mean of the
`k` entries ending at `i`, NaN while fewer than `k` entries are available
(min_periods defaults to the window size).  Callers check `k ≥ 1`. -/
def rollingMean (k : ℕ) (l : List RVal) : List RVal :=
  (List.range l.length).map (fun i =>
    if i + 1 < k then RVal.nan else npMean ((l.drop (i + 1 - k)).take k))

/-- A sample table: a strictly increasing time index plus named channel
columns (cili Samples, a pandas DataFrame). -/
structure Samples where
  index : List ℤ
  cols : List (String × List RVal)
deriving DecidableEq

/-- Column names, as `samples.columns`. -/
def Samples.columns (s : Samples) : List String :=
  s.cols.map Prod.fst

/-- Column lookup `samples[f]`; `none` is a KeyError. -/
def Samples.getCol (s : Samples) (f : String) : Option (List RVal) :=
  s.cols.lookup f

/-- An event row of the events table: a kind tag (EBLINK, ESACC, ...), the
onset time key, and a duration in time units. -/
structure Event where
  kind : String
  onset : ℤ
  duration : ℤ
deriving DecidableEq

/-- Apply a fallible function to every element, failing on the first error
(the semantics of a pandas `apply` whose body may raise). -/
def mapOpt {α β : Type} (f : α → Option β) : List α → Option (List β)
  | [] => some []
  | a :: l => do
    let b ← f a
    let bs ← mapOpt f l
    some (b :: bs)

/-- Modelled from the spec: the events container (models.py, not part of the
embedded file) tags each event row with its kind; `events.EBLINK.duration
.to_frame()` selects the blink-kind rows as an (onset, duration) frame, and
an empty selection is an empty frame. -/
def eblinkFrame (events : List Event) : List (ℤ × ℤ) :=
  (events.filter (fun e => e.kind == "EBLINK")).map (fun e => (e.onset, e.duration))

/-- Modelled from the spec: `events.ESACC.duration.to_frame()`, the
saccade-kind rows as an (onset, duration) frame. -/
def esaccFrame (events : List Event) : List (ℤ × ℤ) :=
  (events.filter (fun e => e.kind == "ESACC")).map (fun e => (e.onset, e.duration))

/-- Body of `has_overlapping_events` (cleanup.py): the (onset, last_onset)
pairs are filtered by `onsets <= event.name + event.duration` and
`last_onsets >= event.name`, and the function reports whether any pair
survives.  `name` is the event's row label, i.e. its onset. -/
def has_overlapping_events (name duration : ℤ) (pairs : List (ℤ × ℤ)) : Bool :=
  let hits := pairs.filter (fun p => decide (p.1 ≤ name + duration) && decide (name ≤ p.2))
  decide (0 < hits.length)

/-- Keep the rows of `l` whose entry in the aligned boolean mask is true
(pandas boolean-mask row selection `outer[idxs]`). -/
def maskFilter {α : Type} (l : List α) (mask : List Bool) : List α :=
  (l.zip mask).filterMap (fun p => if p.2 then some p.1 else none)

/-- Embedding of `find_nested_events(samples, outer, inner)` (cleanup.py):
per inner event, compute the time key of its last sample (searchsorted on
the sample index, stepped back once unless the event ran past the last
sample), then keep the outer events that overlap some (onset, last_onset)
pair.  `none` is an uncaught exception (`samples.index[-1]` on an empty
table). -/
def find_nested_events (samples : Samples) (outer inner : List (ℤ × ℤ)) :
    Option (List (ℤ × ℤ)) := do
  let onsets := inner.map Prod.fst
  let post_onsets := inner.map (fun p => p.1 + p.2)
  let max_onset ← samples.index.getLast?
  let last_idxs : List ℤ :=
    post_onsets.map (fun x => max 0 ((searchSortedRight samples.index x : ℤ) - 1))
  let last_idxs :=
    (post_onsets.zip last_idxs).map (fun pl => if pl.1 ≤ max_onset then pl.2 - 1 else pl.2)
  let last_onsets ← mapOpt (pyIdx samples.index) last_idxs
  let pairs := onsets.zip last_onsets
  let idxs := outer.map (fun ev => has_overlapping_events ev.1 ev.2 pairs)
  if idxs.length = 0 then some [] else some (maskFilter outer idxs)

/-- Per-event body of the loop of `adjust_eyelink_recov_idxs` (cleanup.py):
the try block resolves the event's end time `idx + dur` to the position one
before it and reads the window-end time key, any exception there giving
`s_pos = e_pos = 0`; an event with `s_pos == e_pos` keeps its duration;
otherwise the first position in the z-scored window below `z_thresh` (0
when not found) yields the new end's time key, and the new duration is that
key minus the onset.  `none` is an uncaught exception (numpy argmax of an
empty slice). -/
def adjustEvent (index : List ℤ) (dfs_ravg : List RVal) (m v : RVal) (z_thresh : ℚ)
    (window : ℕ) (samp_count : ℤ) (idx dur : ℤ) : Option ℤ :=
  let sp : ℤ × ℤ :=
    match getLoc index (idx + dur) with
    | none => (0, 0)
    | some p =>
      let s_pos : ℤ := (p : ℤ) - 1
      match pyIdx index (min (s_pos + (window : ℤ)) (samp_count - 1)) with
      | none => (0, 0)
      | some e => (s_pos, e)
  let s_pos := sp.1
  let e_pos := sp.2
  if s_pos = e_pos then some dur
  else
    let bools := (pySlice dfs_ravg s_pos e_pos).map (fun x => zBelowB m v x z_thresh)
    if bools.isEmpty then none
    else
      let e_dpos : ℤ := argmaxBool bools
      match pyIdx index (min (s_pos + e_dpos) (samp_count - 1)) with
      | none => none
      | some new_end => some (new_end - idx)

/-- The per-event loop of `adjust_eyelink_recov_idxs`, collecting the new
durations in order. -/
def adjustDurs (index : List ℤ) (dfs_ravg : List RVal) (m v : RVal) (z_thresh : ℚ)
    (window : ℕ) (samp_count : ℤ) : List (ℤ × ℤ) → Option (List ℤ)
  | [] => some []
  | (idx, dur) :: rest => do
    let d ← adjustEvent index dfs_ravg m v z_thresh window samp_count idx dur
    let ds ← adjustDurs index dfs_ravg m v z_thresh window samp_count rest
    some (d :: ds)

/-- Embedding of `adjust_eyelink_recov_idxs(samples, events, z_thresh,
window, kernel_size)` (cleanup.py).  The recognized pupil-channel name set
PUP_FIELDS lives in util.py (outside the embedded file) and per the spec is
an injected configuration value, so it is the `pupFields` parameter.  With
no pupil channel the call returns without touching the events; otherwise
the channel's gradient is smoothed by a reversed rolling mean, z-scored
globally, and each event's duration is rewritten from the per-event search.
The in-place `events.duration = new_durs` is rendered as the returned event
list (onsets preserved, durations replaced positionally); `none` is an
uncaught exception (numpy gradient on fewer than two samples, pandas
rolling with a zero window, or an empty argmax slice). -/
def adjust_eyelink_recov_idxs (pupFields : List String) (samples : Samples)
    (events : List (ℤ × ℤ)) (z_thresh : ℚ) (window kernel_size : ℕ) :
    Option (List (ℤ × ℤ)) :=
  let p_fields := samples.columns.filter (fun f => pupFields.contains f)
  match p_fields with
  | [] => some events
  | field :: _ =>
    match samples.getCol field with
    | none => none
    | some xs =>
      if xs.length < 2 then none
      else if kernel_size = 0 then none
      else
        let dfs := npGradient xs
        let reversed_dfs := dfs.reverse
        let reversed_dfs_ravg := rollingMean kernel_size reversed_dfs
        let dfs_ravg := reversed_dfs_ravg.reverse
        let m := npMean dfs_ravg
        let v := npVariance dfs_ravg
        let samp_count : ℤ := samples.index.length
        (adjustDurs samples.index dfs_ravg m v z_thresh window samp_count events).map
          (fun ds => (events.map Prod.fst).zip ds)

/-- Embedding of `get_eyelink_mask_events(samples, events, find_recovery)`
(cleanup.py): the blink frame, concatenated with the saccades found to
contain a blink, optionally passed through the recovery adjustment. -/
def get_eyelink_mask_events (pupFields : List String) (samples : Samples)
    (events : List Event) (find_recovery : Bool) (z_thresh : ℚ)
    (window kernel_size : ℕ) : Option (List (ℤ × ℤ)) := do
  let be := eblinkFrame events
  let nested ← find_nested_events samples (esaccFrame events) be
  let be := be ++ nested
  if find_recovery then
    adjust_eyelink_recov_idxs pupFields samples be z_thresh window kernel_size
  else some be

/-- Python `range(a, b)` over integers. -/
def rangeZ (a b : ℤ) : List ℤ :=
  (List.range (b - a).toNat).map (fun i : ℕ => a + (i : ℤ))

/-- Insert into a strictly ascending list, skipping duplicates. -/
def insertUnique (x : ℤ) : List ℤ → List ℤ
  | [] => [x]
  | y :: ys =>
    if x < y then x :: y :: ys
    else if x = y then y :: ys
    else y :: insertUnique x ys

/-- `numpy.unique`: the distinct values, sorted ascending. -/
def npUnique (l : List ℤ) : List ℤ :=
  l.foldr insertUnique []

/-- `numpy.intersect1d`: the sorted distinct values common to both inputs. -/
def npIntersect1d (a b : List ℤ) : List ℤ :=
  npUnique (a.filter (fun x => b.contains x))

/-- Embedding of `ev_row_idxs(samples, events)` (cleanup.py): for each event
enumerate `range(onset, onset + duration)`, then `np.unique`, then
`np.intersect1d` with the sample index. -/
def ev_row_idxs (samples : Samples) (events : List (ℤ × ℤ)) : List ℤ :=
  let idxs := events.flatMap (fun p => rangeZ p.1 (p.1 + p.2))
  let idxs := npUnique idxs
  npIntersect1d idxs samples.index

/-- Embedding of `get_eyelink_mask_idxs(samples, events, find_recovery)`
(cleanup.py). -/
def get_eyelink_mask_idxs (pupFields : List String) (samples : Samples)
    (events : List Event) (find_recovery : Bool) (z_thresh : ℚ)
    (window kernel_size : ℕ) : Option (List ℤ) := do
  let be ← get_eyelink_mask_events pupFields samples events find_recovery
    z_thresh window kernel_size
  some (ev_row_idxs samples be)

/-- Label-based assignment `samps.loc[indices, mask_fields] = nan`
(pandas): in each listed column, the cells at the rows whose time key is in
`indices` become NaN; a missing column label raises (KeyError, `none`).
Callers pass `indices` produced by ev_row_idxs, hence a subset of the
table's own index. -/
def locSetNaN (samples : Samples) (indices : List ℤ) (fields : List String) :
    Option Samples :=
  if fields.all (fun f => samples.columns.contains f) then
    some ⟨samples.index, samples.cols.map (fun c =>
      if fields.contains c.1 then
        (c.1, (samples.index.zip c.2).map (fun tx =>
          if indices.contains tx.1 then RVal.nan else tx.2))
      else c)⟩
  else none

/-- Embedding of `mask_eyelink_blinks(samples, events, mask_fields,
find_recovery)` (cleanup.py): deep-copy the samples (value semantics here),
find the mask indices, NaN the listed fields at those rows. -/
def mask_eyelink_blinks (pupFields : List String) (samples : Samples)
    (events : List Event) (mask_fields : List String) (find_recovery : Bool)
    (z_thresh : ℚ) (window kernel_size : ℕ) : Option Samples := do
  let samps := samples
  let indices ← get_eyelink_mask_idxs pupFields samps events find_recovery
    z_thresh window kernel_size
  locSetNaN samps indices mask_fields

/-- Embedding of `interp_eyelink_blinks(samples, events, find_recovery,
interp_fields)` (cleanup.py).  The final statement is
`samps = samps.interpolate(method="linear", axis=0, inplace=True)`:
DataFrame.interpolate with inplace=True returns None, so `samps` is rebound
to None and the function returns None (`some none` here; the outer Option
is an exception escaping the masking step). -/
def interp_eyelink_blinks (pupFields : List String) (samples : Samples)
    (events : List Event) (find_recovery : Bool) (interp_fields : List String)
    (z_thresh : ℚ) (window kernel_size : ℕ) : Option (Option Samples) :=
  (mask_eyelink_blinks pupFields samples events interp_fields find_recovery
    z_thresh window kernel_size).map (fun _ => none)

/-- One pass of the loop body of `mask_zeros` (cleanup.py):
`samps[samps[f] == 0] = float("nan")` — a whole-row boolean-mask
assignment: every column's cell in a row where column `f` equals 0 becomes
NaN.  `none` is the KeyError for a missing column. -/
def maskZeroField (s : Samples) (f : String) : Option Samples := do
  let col ← s.getCol f
  let mask := col.map (fun x => decide (x = RVal.val 0))
  some ⟨s.index, s.cols.map (fun c =>
    (c.1, (mask.zip c.2).map (fun bx => if bx.1 then RVal.nan else bx.2)))⟩

/-- Embedding of `mask_zeros(samples, mask_fields)` (cleanup.py): deep copy,
then the row-masking pass once per listed field, in order. -/
def mask_zeros (samples : Samples) (mask_fields : List String) : Option Samples :=
  mask_fields.foldlM maskZeroField samples

/-- A store of event-duration frames, making pandas object identity
explicit for the frame-effect claims: each frame lives at a reference,
operations that allocate (`Series.to_frame`, `pd.concat`, both of which
produce fresh frames) return a fresh reference, and the in-place duration
write of adjust_eyelink_recov_idxs overwrites the frame at the reference it
was handed. -/
structure EvStore where
  tables : List (List (ℤ × ℤ))
deriving DecidableEq

/-- Dereference a frame. -/
def EvStore.read (σ : EvStore) (r : ℕ) : Option (List (ℤ × ℤ)) :=
  σ.tables.get? r

/-- Allocate a fresh frame, returning its reference. -/
def EvStore.alloc (σ : EvStore) (t : List (ℤ × ℤ)) : EvStore × ℕ :=
  (⟨σ.tables ++ [t]⟩, σ.tables.length)

/-- Overwrite the frame at an existing reference (in-place mutation). -/
def EvStore.write (σ : EvStore) (r : ℕ) (t : List (ℤ × ℤ)) : EvStore :=
  ⟨σ.tables.set r t⟩

/-- Store-passing rendering of `get_eyelink_mask_events` (cleanup.py), with
the caller's per-kind frames (cili's Events object keeps one frame per
kind) living at `blinkRef` and `saccRef`:
`be = events.EBLINK.duration.to_frame()` allocates a fresh frame,
`pd.concat([be, ...])` allocates another, and when `find_recovery` is set
`adjust_eyelink_recov_idxs(samples, be)` rewrites the durations in place at
that fresh reference only. -/
def get_eyelink_mask_events_st (pupFields : List String) (samples : Samples)
    (σ : EvStore) (blinkRef saccRef : ℕ) (find_recovery : Bool) (z_thresh : ℚ)
    (window kernel_size : ℕ) : Option (EvStore × ℕ) := do
  let eblink ← σ.read blinkRef
  let esacc ← σ.read saccRef
  let (σ1, _) := σ.alloc eblink
  let nested ← find_nested_events samples esacc eblink
  let (σ2, beRef) := σ1.alloc (eblink ++ nested)
  if find_recovery then do
    let t ← σ2.read beRef
    let t' ← adjust_eyelink_recov_idxs pupFields samples t z_thresh window kernel_size
    some (σ2.write beRef t', beRef)
  else some (σ2, beRef)

/-- Store-passing rendering of `mask_eyelink_blinks` (cleanup.py): the
sample table is deep-copied (value semantics), the mask events are built
(possibly mutating only their own fresh frame, see
get_eyelink_mask_events_st), expanded to indices and NaN-masked. -/
def mask_eyelink_blinks_st (pupFields : List String) (samples : Samples)
    (σ : EvStore) (blinkRef saccRef : ℕ) (mask_fields : List String)
    (find_recovery : Bool) (z_thresh : ℚ) (window kernel_size : ℕ) :
    Option (EvStore × Samples) := do
  let samps := samples
  let (σ', beRef) ← get_eyelink_mask_events_st pupFields samps σ blinkRef saccRef
    find_recovery z_thresh window kernel_size
  let be ← σ'.read beRef
  let indices := ev_row_idxs samps be
  let masked ← locSetNaN samps indices mask_fields
  some (σ', masked)

/-- A six-sample table with a flat left-pupil channel, used to evaluate the
recovery adjustment concretely. -/
def sampFlat6 : Samples :=
  ⟨[0, 1, 2, 3, 4, 5], [("pup_l", List.replicate 6 (RVal.val 10))]⟩

/-- A seven-sample table with a flat left-pupil channel (value 7). -/
def sampFlat7 : Samples :=
  ⟨[0, 1, 2, 3, 4, 5, 6], [("pup_l", List.replicate 7 (RVal.val 7))]⟩

/-- A two-sample table with a rising left-pupil channel. -/
def sampTwo : Samples :=
  ⟨[0, 1], [("pup_l", [RVal.val 1, RVal.val 2])]⟩

/-- A one-row, two-column table whose p-cell is zero and whose q-cell is
seven. -/
def sampZeroRow : Samples :=
  ⟨[0], [("p", [RVal.val 0]), ("q", [RVal.val 7])]⟩

/-
  Helper lemmas.
-/

theorem mem_rangeZ {a b x : ℤ} : x ∈ rangeZ a b ↔ a ≤ x ∧ x < b := by
  unfold rangeZ
  simp only [List.mem_map, List.mem_range]
  constructor
  · rintro ⟨i, hi, rfl⟩
    omega
  · intro h
    refine ⟨(x - a).toNat, by omega, by omega⟩

theorem mem_insertUnique {x y : ℤ} : ∀ {l : List ℤ}, y ∈ insertUnique x l ↔ y = x ∨ y ∈ l := by
  intro l
  induction l with
  | nil => simp [insertUnique]
  | cons z zs ih =>
    unfold insertUnique
    split_ifs with h1 h2
    · simp [List.mem_cons]
    · subst h2
      simp only [List.mem_cons]
      tauto
    · simp only [List.mem_cons, ih]
      tauto

theorem sorted_insertUnique {x : ℤ} :
    ∀ {l : List ℤ}, l.Sorted (· < ·) → (insertUnique x l).Sorted (· < ·) := by
  intro l
  induction l with
  | nil =>
    intro _
    simp [insertUnique]
  | cons z zs ih =>
    intro h
    rw [List.sorted_cons] at h
    obtain ⟨hz, hzs⟩ := h
    unfold insertUnique
    split_ifs with h1 h2
    · rw [List.sorted_cons]
      refine ⟨?_, by rw [List.sorted_cons]; exact ⟨hz, hzs⟩⟩
      intro b hb
      rcases List.mem_cons.mp hb with rfl | hb
      · exact h1
      · exact lt_trans h1 (hz b hb)
    · rw [List.sorted_cons]
      exact ⟨hz, hzs⟩
    · rw [List.sorted_cons]
      refine ⟨?_, ih hzs⟩
      intro b hb
      rcases mem_insertUnique.mp hb with rfl | hb
      · omega
      · exact hz b hb

theorem mem_npUnique {y : ℤ} : ∀ {l : List ℤ}, y ∈ npUnique l ↔ y ∈ l := by
  intro l
  induction l with
  | nil => simp [npUnique]
  | cons z zs ih =>
    have hstep : npUnique (z :: zs) = insertUnique z (npUnique zs) := rfl
    rw [hstep, mem_insertUnique, ih, List.mem_cons]

theorem sorted_npUnique : ∀ {l : List ℤ}, (npUnique l).Sorted (· < ·) := by
  intro l
  induction l with
  | nil => simp [npUnique]
  | cons z zs ih =>
    have hstep : npUnique (z :: zs) = insertUnique z (npUnique zs) := rfl
    rw [hstep]
    exact sorted_insertUnique ih

theorem get?_zip {α β : Type} :
    ∀ (as : List α) (bs : List β) (i : ℕ) (a : α) (b : β),
      as.get? i = some a → bs.get? i = some b → (as.zip bs).get? i = some (a, b) := by
  intro as
  induction as with
  | nil => intro bs i a b h; simp at h
  | cons x xs ih =>
    intro bs i a b ha hb
    cases bs with
    | nil => simp at hb
    | cons y ys =>
      cases i with
      | zero =>
        simp only [List.get?] at ha hb
        cases ha
        cases hb
        rfl
      | succ j =>
        simp only [List.get?] at ha hb ⊢
        exact ih ys j a b ha hb

theorem adjustEvent_of_getLoc_none {index : List ℤ} {dfs_ravg : List RVal} {m v : RVal}
    {z : ℚ} {w : ℕ} {n idx dur : ℤ} (h : getLoc index (idx + dur) = none) :
    adjustEvent index dfs_ravg m v z w n idx dur = some dur := by
  unfold adjustEvent
  rw [h]
  rfl

theorem adjustDurs_length {index : List ℤ} {dfs_ravg : List RVal} {m v : RVal}
    {z : ℚ} {w : ℕ} {n : ℤ} :
    ∀ {evs : List (ℤ × ℤ)} {ds : List ℤ},
      adjustDurs index dfs_ravg m v z w n evs = some ds → ds.length = evs.length := by
  intro evs
  induction evs with
  | nil =>
    intro ds h
    simp only [adjustDurs] at h
    cases h
    rfl
  | cons e rest ih =>
    intro ds h
    obtain ⟨idx, dur⟩ := e
    simp only [adjustDurs, Option.bind_eq_bind, Option.bind_eq_some] at h
    obtain ⟨d, _, ds', hds', hcons⟩ := h
    cases hcons
    simp [ih hds']

theorem adjustDurs_get?_of_getLoc_none {index : List ℤ} {dfs_ravg : List RVal} {m v : RVal}
    {z : ℚ} {w : ℕ} {n : ℤ} :
    ∀ {evs : List (ℤ × ℤ)} {ds : List ℤ} {i : ℕ} {idx dur : ℤ},
      adjustDurs index dfs_ravg m v z w n evs = some ds →
      evs.get? i = some (idx, dur) → getLoc index (idx + dur) = none →
      ds.get? i = some dur := by
  intro evs
  induction evs with
  | nil =>
    intro ds i idx dur _ hev
    simp at hev
  | cons e rest ih =>
    intro ds i idx dur hadj hev hloc
    obtain ⟨idx0, dur0⟩ := e
    simp only [adjustDurs, Option.bind_eq_bind, Option.bind_eq_some] at hadj
    obtain ⟨d, hd, ds', hds', hcons⟩ := hadj
    cases hcons
    cases i with
    | zero =>
      simp only [List.get?] at hev ⊢
      cases hev
      rw [adjustEvent_of_getLoc_none hloc] at hd
      cases hd
      rfl
    | succ j =>
      simp only [List.get?] at hev ⊢
      exact ih hds' hev hloc

theorem mapOpt_eq_some_of_forall {α β : Type} (f : α → Option β) :
    ∀ (l : List α), (∀ a ∈ l, ∃ b, f a = some b) → ∃ bs, mapOpt f l = some bs := by
  intro l
  induction l with
  | nil => intro _; exact ⟨[], rfl⟩
  | cons a l ih =>
    intro h
    obtain ⟨b, hb⟩ := h a (List.mem_cons_self a l)
    obtain ⟨bs, hbs⟩ := ih (fun a' ha' => h a' (List.mem_cons_of_mem a ha'))
    refine ⟨b :: bs, ?_⟩
    simp [mapOpt, hb, hbs]

theorem maskFilter_of_forall_false {α : Type} :
    ∀ (l : List α) (mask : List Bool), (∀ b ∈ mask, b = false) → maskFilter l mask = [] := by
  intro l
  induction l with
  | nil => intro mask _; simp [maskFilter]
  | cons x xs ih =>
    intro mask h
    cases mask with
    | nil => simp [maskFilter]
    | cons b bs =>
      have hb : b = false := h b (List.mem_cons_self b bs)
      subst hb
      have := ih bs (fun b' hb' => h b' (List.mem_cons_of_mem false hb'))
      simp only [maskFilter, List.zip_cons_cons, List.filterMap_cons] at this ⊢
      simpa using this

theorem pyIdx_eq_some_of_range {l : List ℤ} (hne : l ≠ []) {i : ℤ}
    (h1 : -1 ≤ i) (h2 : i ≤ (l.length : ℤ) - 1) : ∃ a, pyIdx l i = some a := by
  have hlen : 0 < l.length := List.length_pos.mpr hne
  unfold pyIdx
  split_ifs with hneg hnn
  · have hlt : (i + l.length).toNat < l.length := by omega
    exact ⟨l.get ⟨(i + l.length).toNat, hlt⟩, List.get?_eq_get hlt⟩
  · omega
  · have : i.toNat < l.length := by omega
    exact ⟨l.get ⟨i.toNat, this⟩, List.get?_eq_get this⟩

/-
  Claim theorems.  Batteries marks the rational arithmetic irreducible,
  which blocks elaboration-time evaluation only; making it semireducible
  locally lets `decide` evaluate the embedded pipeline on concrete tables.
-/

section
attribute [local semireducible] Rat.add Rat.sub Rat.mul Rat.inv

/-- C1: the claim states that adjust_eyelink_recov_idxs never shortens an
event's duration and leaves it exactly unchanged when no qualifying
recovery position is found.  The code violates this: on a six-sample table
(times 0..5) with a flat pup_l channel and default parameters (z_thresh
1/10, window 1000, kernel_size 100), the smoothed z-scored gradient is NaN
throughout (the rolling mean's leading NaNs poison the global mean), so the
threshold is never satisfied, argmax returns offset 0, and the event
(onset 1, duration 3) gets duration `samples.index[s_pos] - onset = 2`:
the call returns the event shortened from 3 to 2. -/
theorem c1_recovery_adjustment_shortens_duration :
    adjust_eyelink_recov_idxs ["pup_l", "pup_r"] sampFlat6 [(1, 3)] (1/10) 1000 100 =
      some [(1, 2)] := by
  decide

/-- C2: the claim states that mask_zeros NaNs exactly the zero cells of the
listed fields and leaves every cell outside the listed fields unchanged.
The code violates this: `samps[samps[f] == 0] = float("nan")` is a
whole-row boolean-mask assignment, so on a table with columns p = [0] and
q = [7], masking field "p" also turns the q cell into NaN. -/
theorem c2_mask_zeros_nans_whole_row :
    mask_zeros sampZeroRow ["p"] =
      some ⟨[0], [("p", [RVal.nan]), ("q", [RVal.nan])]⟩ := by
  decide

/-- C3: the claim states that interp_eyelink_blinks returns a new sample
table with the input's shape and index.  The code violates this: its last
line is `samps = samps.interpolate(..., inplace=True)`, and pandas
interpolate with inplace=True returns None, so the function returns None
(here `some none`: the call completes without an exception but yields
Python None, not a table). -/
theorem c3_interp_eyelink_blinks_returns_none :
    interp_eyelink_blinks ["pup_l"] sampTwo [⟨"EBLINK", 0, 1⟩] true ["pup_l"]
      (1/10) 1000 1 = some none := by
  decide

/-- C4: the claim states that on a zero-variance (flat) signal the call
raises no division fault and makes no adjustment to any event's duration.
The first half holds (the result is `some _`, not an exception: the z-score
is numpy's 0/0 = NaN and the threshold is never satisfied), but the second
fails: on a flat seven-sample table with kernel_size 1 (so the variance is
exactly 0 with no NaN padding), the event (onset 2, duration 2) comes back
with duration 1 — the not-found offset 0 lands one position before the
reported end, shortening the event. -/
theorem c4_zero_variance_no_fault_but_adjusts :
    adjust_eyelink_recov_idxs ["pup_l"] sampFlat7 [(2, 2)] (1/10) 1000 1 =
      some [(2, 1)] := by
  decide

/-- C8: if the sample table contains none of the recognized pupil-size
channel names, adjust_eyelink_recov_idxs returns without raising and every
event's duration is left unchanged (the whole call is a no-op on the
events). -/
theorem c8_no_pupil_channel_noop (pupFields : List String) (samples : Samples)
    (events : List (ℤ × ℤ)) (z : ℚ) (w k : ℕ)
    (h : samples.columns.filter (fun f => pupFields.contains f) = []) :
    adjust_eyelink_recov_idxs pupFields samples events z w k = some events := by
  unfold adjust_eyelink_recov_idxs
  rw [h]

/-- C8 witness: a concrete table whose only channel "x" is not a recognized
pupil channel; the call returns the events unchanged. -/
theorem c8_no_pupil_channel_noop_witness :
    adjust_eyelink_recov_idxs ["pup_l"] ⟨[0, 1], [("x", [RVal.val 1, RVal.val 2])]⟩
      [(0, 1)] (1/10) 1000 100 = some [(0, 1)] :=
  c8_no_pupil_channel_noop ["pup_l"] ⟨[0, 1], [("x", [RVal.val 1, RVal.val 2])]⟩
    [(0, 1)] (1/10) 1000 100 (by decide)

end

theorem has_overlapping_events_iff (name duration : ℤ) (pairs : List (ℤ × ℤ)) :
    has_overlapping_events name duration pairs = true ↔
      ∃ p ∈ pairs, p.1 ≤ name + duration ∧ name ≤ p.2 := by
  simp only [has_overlapping_events, decide_eq_true_eq, List.length_pos_iff_exists_mem,
    List.mem_filter, Bool.and_eq_true]

/-- C6: has_overlapping_events reports an overlap iff some (onset, lastEnd)
pair satisfies onset ≤ outerOnset + outerDuration and lastEnd ≥ outerOnset;
the single-pair test is symmetric in the two intervals (writing each as
(onset, end) with duration = end - onset), and touching endpoints (a pair
starting exactly at the event's end) count as overlapping. -/
theorem c6_overlap_test (o d : ℤ) (pairs : List (ℤ × ℤ)) :
    (has_overlapping_events o d pairs = true ↔
      ∃ p ∈ pairs, p.1 ≤ o + d ∧ o ≤ p.2)
    ∧ (∀ aOn aEnd bOn bEnd : ℤ,
        has_overlapping_events aOn (aEnd - aOn) [(bOn, bEnd)] =
          has_overlapping_events bOn (bEnd - bOn) [(aOn, aEnd)])
    ∧ (∀ e : ℤ, o ≤ e → has_overlapping_events o d [(o + d, e)] = true) := by
  refine ⟨has_overlapping_events_iff o d pairs, ?_, ?_⟩
  · intro aOn aEnd bOn bEnd
    have h1 := has_overlapping_events_iff aOn (aEnd - aOn) [(bOn, bEnd)]
    have h2 := has_overlapping_events_iff bOn (bEnd - bOn) [(aOn, aEnd)]
    rw [Bool.eq_iff_iff, h1, h2]
    simp only [List.mem_singleton]
    constructor
    · rintro ⟨p, rfl, hc⟩
      exact ⟨(aOn, aEnd), rfl, by omega⟩
    · rintro ⟨p, rfl, hc⟩
      exact ⟨(bOn, bEnd), rfl, by omega⟩
  · intro e he
    exact (has_overlapping_events_iff o d [(o + d, e)]).mpr
      ⟨(o + d, e), List.mem_singleton.mpr rfl, le_refl _, he⟩

/-- C6 witness: the event (onset 1, duration 2) overlaps the pair
(onset 3, lastEnd 5), whose onset touches the event's end 1 + 2 = 3. -/
theorem c6_overlap_test_witness : has_overlapping_events 1 2 [(3, 5)] = true :=
  ((c6_overlap_test 1 2 [(3, 5)]).1).mpr ⟨(3, 5), by decide, by decide, by decide⟩

theorem mem_ev_row_idxs {samples : Samples} {events : List (ℤ × ℤ)} {x : ℤ} :
    x ∈ ev_row_idxs samples events ↔
      x ∈ samples.index ∧ ∃ p ∈ events, p.1 ≤ x ∧ x < p.1 + p.2 := by
  unfold ev_row_idxs npIntersect1d
  rw [mem_npUnique, List.mem_filter, mem_npUnique]
  simp only [List.mem_flatMap, mem_rangeZ, List.contains, List.elem_eq_mem,
    decide_eq_true_eq]
  tauto

/-- C5: ev_row_idxs returns a strictly ascending (hence deduplicated) list
of sample-index values, each of which is present in the sample table's own
index, and it holds exactly the time keys of the table that lie in some
event's half-open span [onset, onset + duration); spans running past the
table are thereby truncated to existing keys. -/
theorem c5_ev_row_idxs_spec (samples : Samples) (events : List (ℤ × ℤ)) :
    (ev_row_idxs samples events).Sorted (· < ·)
    ∧ (∀ x ∈ ev_row_idxs samples events, x ∈ samples.index)
    ∧ (∀ x : ℤ, x ∈ ev_row_idxs samples events ↔
        x ∈ samples.index ∧ ∃ p ∈ events, p.1 ≤ x ∧ x < p.1 + p.2) := by
  refine ⟨sorted_npUnique, ?_, fun x => mem_ev_row_idxs⟩
  intro x hx
  exact (mem_ev_row_idxs.mp hx).1

/-- C5 witness: with sample index [0, 1, 2, 5] and a single event
(onset 1, duration 4) spanning past time 2, the returned set contains 1,
and 1 is a key of the table. -/
theorem c5_ev_row_idxs_spec_witness : 1 ∈ ev_row_idxs ⟨[0, 1, 2, 5], []⟩ [(1, 4)] ∧
    1 ∈ Samples.index ⟨[0, 1, 2, 5], []⟩ :=
  ⟨((c5_ev_row_idxs_spec ⟨[0, 1, 2, 5], []⟩ [(1, 4)]).2.2 1).mpr
      ⟨by decide, ⟨(1, 4), by decide, by decide, by decide⟩⟩,
    by decide⟩

/-- C7: inside adjust_eyelink_recov_idxs, an event whose end time does not
resolve to a sample position (get_loc raises, caught by the per-event
except clause) keeps exactly its original onset and duration, and the
batch still produces a result for every event (the output has the input's
length): a per-event lookup failure is never fatal and never alters that
event. -/
theorem c7_lookup_failure_is_localized (pupFields : List String) (samples : Samples)
    (events : List (ℤ × ℤ)) (z : ℚ) (w k : ℕ) (res : List (ℤ × ℤ))
    (hres : adjust_eyelink_recov_idxs pupFields samples events z w k = some res) :
    res.length = events.length ∧
    ∀ (i : ℕ) (idx dur : ℤ), events.get? i = some (idx, dur) →
      getLoc samples.index (idx + dur) = none → res.get? i = some (idx, dur) := by
  unfold adjust_eyelink_recov_idxs at hres
  rcases hpf : List.filter (fun f => pupFields.contains f) samples.columns with _ | ⟨field, rest⟩
  · -- no pupil field: the events come back unchanged
    simp only [hpf] at hres
    cases hres
    exact ⟨rfl, fun i idx dur hev _ => hev⟩
  · simp only [hpf] at hres
    rcases hcol : samples.getCol field with _ | xs
    · simp only [hcol] at hres
      cases hres
    · simp only [hcol] at hres
      by_cases hxs : xs.length < 2
      · rw [if_pos hxs] at hres
        cases hres
      · rw [if_neg hxs] at hres
        by_cases hk : k = 0
        · rw [if_pos hk] at hres
          cases hres
        · rw [if_neg hk] at hres
          rw [Option.map_eq_some'] at hres
          obtain ⟨ds, hds, rfl⟩ := hres
          have hlen := adjustDurs_length hds
          constructor
          · rw [List.length_zip, List.length_map, hlen, Nat.min_self]
          · intro i idx dur hev hloc
            have h1 : (events.map Prod.fst).get? i = some idx := by
              have hev' : events[i]? = some (idx, dur) := by
                rw [← List.get?_eq_getElem?]
                exact hev
              rw [List.get?_eq_getElem?, List.getElem?_map, hev']
              rfl
            have h2 : ds.get? i = some dur :=
              adjustDurs_get?_of_getLoc_none hds hev hloc
            exact get?_zip _ _ i idx dur h1 h2

theorem has_overlapping_events_nil (a b : ℤ) : has_overlapping_events a b [] = false := rfl

theorem find_nested_events_inner_nil (samples : Samples) (outer : List (ℤ × ℤ))
    (hne : samples.index ≠ []) :
    find_nested_events samples outer [] = some [] := by
  rcases hm : samples.index.getLast? with _ | m
  · exact absurd (List.getLast?_eq_none_iff.mp hm) hne
  · unfold find_nested_events
    simp only [List.map_nil, hm, Option.bind_eq_bind, Option.some_bind, List.zip_nil_left,
      List.zip_nil_right, mapOpt, has_overlapping_events_nil]
    rcases outer with _ | ⟨o, os⟩
    · simp
    · simp only [List.map_cons, List.length_cons]
      rw [if_neg (by simp)]
      simp only [Option.some_inj]
      refine maskFilter_of_forall_false _ _ ?_
      intro b hb
      simp only [List.mem_cons, List.mem_map] at hb
      rcases hb with rfl | ⟨a, _, rfl⟩ <;> rfl

theorem find_nested_events_outer_nil (samples : Samples) (inner : List (ℤ × ℤ))
    (hne : samples.index ≠ []) :
    find_nested_events samples [] inner = some [] := by
  rcases hm : samples.index.getLast? with _ | m
  · exact absurd (List.getLast?_eq_none_iff.mp hm) hne
  · unfold find_nested_events
    simp only [hm, Option.bind_eq_bind, Option.some_bind]
    have hsome : ∃ bs, mapOpt (pyIdx samples.index)
        (((inner.map fun p => p.1 + p.2).zip
          ((inner.map fun p => p.1 + p.2).map fun x =>
            max 0 ((searchSortedRight samples.index x : ℤ) - 1))).map
          fun pl => if pl.1 ≤ m then pl.2 - 1 else pl.2) = some bs := by
      refine mapOpt_eq_some_of_forall _ _ ?_
      intro a ha
      simp only [List.mem_map] at ha
      obtain ⟨pl, hpl, rfl⟩ := ha
      have hz := List.of_mem_zip hpl
      obtain ⟨_, hr⟩ := hz
      simp only [List.mem_map] at hr
      obtain ⟨x, _, hx⟩ := hr
      have hss : (searchSortedRight samples.index x : ℤ) ≤ samples.index.length := by
        exact_mod_cast List.countP_le_length _
      have hlen : 0 < samples.index.length := List.length_pos.mpr hne
      refine pyIdx_eq_some_of_range hne ?_ ?_ <;> · split_ifs <;> omega
    obtain ⟨bs, hbs⟩ := hsome
    rw [hbs]
    simp

theorem lookup_isSome_of_mem_fst {α β : Type} [BEq α] [LawfulBEq α] {l : List (α × β)} {a : α}
    (h : a ∈ l.map Prod.fst) : ∃ b, l.lookup a = some b := by
  induction l with
  | nil => simp at h
  | cons kv l ih =>
    obtain ⟨k, v⟩ := kv
    simp only [List.map_cons, List.mem_cons] at h
    by_cases hk : a == k
    · exact ⟨v, by simp [List.lookup, hk]⟩
    · rcases h with rfl | h
      · simp at hk
      · obtain ⟨b, hb⟩ := ih h
        exact ⟨b, by simp [List.lookup, hk, hb]⟩

theorem adjust_eyelink_recov_idxs_nil (pupFields : List String) (samples : Samples)
    (z : ℚ) (w k : ℕ)
    (hcols : ∀ f xs, samples.getCol f = some xs → 2 ≤ xs.length) (hk : k ≠ 0) :
    adjust_eyelink_recov_idxs pupFields samples [] z w k = some [] := by
  unfold adjust_eyelink_recov_idxs
  rcases hpf : List.filter (fun f => pupFields.contains f) samples.columns with _ | ⟨field, rest⟩
  · simp only [hpf]
  · simp only [hpf]
    have hfield : field ∈ samples.cols.map Prod.fst := by
      have hmem : field ∈ List.filter (fun f => pupFields.contains f) samples.columns := by
        rw [hpf]
        exact List.mem_cons_self _ _
      exact (List.mem_filter.mp hmem).1
    obtain ⟨xs, hxs⟩ := lookup_isSome_of_mem_fst hfield
    have hxs' : samples.getCol field = some xs := hxs
    simp only [hxs']
    rw [if_neg (by have := hcols field xs hxs'; omega), if_neg hk]
    simp [adjustDurs]

/-- C9: empty event sets propagate as empty results, not errors: on a
nonempty sample table, find_nested_events returns the empty frame when its
inner set is empty and when its outer set is empty, and
get_eyelink_mask_events returns the empty frame (not an exception) when
there are no blink events (sample columns of length ≥ 2 and a nonzero
smoothing kernel keep the recovery pass itself from raising). -/
theorem c9_empty_inputs_give_empty (samples : Samples) (outer inner : List (ℤ × ℤ))
    (events : List Event) (pupFields : List String) (fr : Bool) (z : ℚ) (w k : ℕ)
    (hne : samples.index ≠ [])
    (hcols : ∀ f xs, samples.getCol f = some xs → 2 ≤ xs.length)
    (hk : k ≠ 0) :
    find_nested_events samples outer [] = some []
    ∧ find_nested_events samples [] inner = some []
    ∧ (eblinkFrame events = [] →
        get_eyelink_mask_events pupFields samples events fr z w k = some []) := by
  refine ⟨find_nested_events_inner_nil samples outer hne,
    find_nested_events_outer_nil samples inner hne, ?_⟩
  intro hbe
  unfold get_eyelink_mask_events
  rw [hbe]
  simp only [find_nested_events_inner_nil samples (esaccFrame events) hne,
    Option.bind_eq_bind, Option.some_bind, List.append_nil, List.nil_append]
  cases fr
  · rfl
  · simp only [if_pos rfl]
    exact adjust_eyelink_recov_idxs_nil pupFields samples z w k hcols hk

theorem read_lt_length {σ : EvStore} {r : ℕ} {t : List (ℤ × ℤ)}
    (h : σ.read r = some t) : r < σ.tables.length := by
  unfold EvStore.read at h
  rcases List.get?_eq_some.mp h with ⟨hlt, _⟩
  exact hlt

theorem get_eyelink_mask_events_st_preserves (pupFields : List String) (samples : Samples)
    (σ : EvStore) (blinkRef saccRef : ℕ) (fr : Bool) (z : ℚ) (w k : ℕ)
    (σ' : EvStore) (out : ℕ)
    (h : get_eyelink_mask_events_st pupFields samples σ blinkRef saccRef fr z w k =
      some (σ', out))
    (r : ℕ) (hr : r < σ.tables.length) :
    σ'.read r = σ.read r := by
  unfold get_eyelink_mask_events_st at h
  rcases hb : σ.read blinkRef with _ | eblink <;> rw [hb] at h
  · cases h
  rcases hs : σ.read saccRef with _ | esacc <;> rw [hs] at h
  · cases h
  simp only [Option.bind_eq_bind, Option.some_bind, EvStore.alloc] at h
  rcases hn : find_nested_events samples esacc eblink with _ | nested <;> rw [hn] at h
  · cases h
  simp only [Option.some_bind] at h
  have hread : EvStore.read ⟨(σ.tables ++ [eblink]) ++ [eblink ++ nested]⟩
      ((σ.tables ++ [eblink]).length) = some (eblink ++ nested) := by
    unfold EvStore.read
    exact List.get?_concat_length _ _
  cases fr with
  | false =>
    simp only [Bool.false_eq_true, if_neg] at h
    simp only [reduceIte] at h
    cases h
    unfold EvStore.read
    have hr1 : r < (σ.tables ++ [eblink]).length := by
      simp only [List.length_append, List.length_singleton]
      omega
    rw [List.get?_append hr1, List.get?_append hr]
  | true =>
    simp only [if_pos rfl] at h
    rw [hread] at h
    simp only [Option.some_bind] at h
    rcases ha : adjust_eyelink_recov_idxs pupFields samples (eblink ++ nested) z w k
        with _ | t' <;> rw [ha] at h
    · cases h
    simp only [Option.some_bind, Option.some_inj] at h
    cases h
    unfold EvStore.write EvStore.read
    have hne : (σ.tables ++ [eblink]).length ≠ r := by
      simp only [List.length_append, List.length_singleton]
      omega
    rw [List.get?_set_ne _ _ hne]
    have hr1 : r < (σ.tables ++ [eblink]).length := by
      simp only [List.length_append, List.length_singleton]
      omega
    rw [List.get?_append hr1, List.get?_append hr]

/-- C10: neither get_eyelink_mask_events nor mask_eyelink_blinks (with
find_recovery on) ever mutates the caller's event frames: the recovery
adjustment's in-place duration write lands on the frame freshly allocated
by to_frame/concat, so after either call the frames at the caller's blink
and saccade references read back exactly as before. -/
theorem c10_caller_frames_never_mutated (pupFields : List String) (samples : Samples)
    (σ : EvStore) (blinkRef saccRef : ℕ) (mask_fields : List String) (z : ℚ) (w k : ℕ) :
    (∀ (σ' : EvStore) (out : ℕ),
      get_eyelink_mask_events_st pupFields samples σ blinkRef saccRef true z w k =
        some (σ', out) →
      σ'.read blinkRef = σ.read blinkRef ∧ σ'.read saccRef = σ.read saccRef)
    ∧ (∀ (σ' : EvStore) (samps : Samples),
      mask_eyelink_blinks_st pupFields samples σ blinkRef saccRef mask_fields true z w k =
        some (σ', samps) →
      σ'.read blinkRef = σ.read blinkRef ∧ σ'.read saccRef = σ.read saccRef) := by
  have main : ∀ (σ' : EvStore) (out : ℕ),
      get_eyelink_mask_events_st pupFields samples σ blinkRef saccRef true z w k =
        some (σ', out) →
      σ'.read blinkRef = σ.read blinkRef ∧ σ'.read saccRef = σ.read saccRef := by
    intro σ' out h
    rcases hb : σ.read blinkRef with _ | tb
    · unfold get_eyelink_mask_events_st at h
      rw [hb] at h
      cases h
    rcases hs : σ.read saccRef with _ | ts
    · unfold get_eyelink_mask_events_st at h
      rw [hb] at h
      simp only [Option.bind_eq_bind, Option.some_bind] at h
      rw [hs] at h
      cases h
    exact ⟨(get_eyelink_mask_events_st_preserves pupFields samples σ blinkRef saccRef
        true z w k σ' out h blinkRef (read_lt_length hb)).trans hb,
      (get_eyelink_mask_events_st_preserves pupFields samples σ blinkRef saccRef
        true z w k σ' out h saccRef (read_lt_length hs)).trans hs⟩
  refine ⟨main, ?_⟩
  intro σ' samps h
  unfold mask_eyelink_blinks_st at h
  simp only [Option.bind_eq_bind] at h
  rcases hg : get_eyelink_mask_events_st pupFields samples σ blinkRef saccRef true z w k
      with _ | p
  · rw [hg] at h
    cases h
  obtain ⟨σ'', beRef⟩ := p
  rw [hg] at h
  simp only [Option.some_bind] at h
  rcases hrd : σ''.read beRef with _ | be
  · rw [hrd] at h
    cases h
  rw [hrd] at h
  simp only [Option.some_bind] at h
  rcases hm : locSetNaN samples (ev_row_idxs samples be) mask_fields with _ | masked
  · rw [hm] at h
    cases h
  rw [hm] at h
  simp only [Option.some_bind, Option.some_inj] at h
  obtain ⟨h1, h2⟩ := Prod.mk.injEq _ _ _ _ ▸ h
  exact h1 ▸ main σ'' beRef hg

section
attribute [local semireducible] Rat.add Rat.sub Rat.mul Rat.inv

/-- C7 witness: on the flat six-sample table, the first event's end time
0 + 100 is not a time key (lookup fails), so it keeps duration 100 while
the second event is still processed (and, per the adjustment's off-by-one,
comes back with duration 2). -/
theorem c7_lookup_failure_is_localized_witness :
    adjust_eyelink_recov_idxs ["pup_l", "pup_r"] sampFlat6 [(0, 100), (1, 3)]
        (1/10) 1000 100 = some [(0, 100), (1, 2)] ∧
    ([(0, 100), (1, 2)] : List (ℤ × ℤ)).get? 0 = some (0, 100) := by
  have h := c7_lookup_failure_is_localized ["pup_l", "pup_r"] sampFlat6
    [(0, 100), (1, 3)] (1/10) 1000 100 [(0, 100), (1, 2)] (by decide)
  exact ⟨by decide, h.2 0 0 100 (by decide) (by decide)⟩

/-- C9 witness: on the two-sample table, an empty inner set yields an empty
frame, and an event table holding only a saccade (no blinks) yields an
empty mask-event frame, not an error. -/
theorem c9_empty_inputs_give_empty_witness :
    find_nested_events sampTwo [(0, 1)] [] = some [] ∧
    get_eyelink_mask_events ["pup_l"] sampTwo [⟨"ESACC", 0, 1⟩] true (1/10) 1000 1 = some [] := by
  have hcols : ∀ f xs, sampTwo.getCol f = some xs → 2 ≤ xs.length := by
    intro f xs h
    simp only [sampTwo, Samples.getCol, List.lookup] at h
    rcases hb : f == "pup_l" <;> rw [hb] at h
    · cases h
    · cases h
      decide
  have h := c9_empty_inputs_give_empty sampTwo [(0, 1)] [] [⟨"ESACC", 0, 1⟩] ["pup_l"]
    true (1/10) 1000 1 (by decide) hcols (by decide)
  exact ⟨h.1, h.2.2 (by decide)⟩

/-- C10 witness: starting from a store holding the caller's blink frame
[(0, 1)] at reference 0 and saccade frame [] at reference 1, the call
allocates references 2 and 3, rewrites only reference 3 (durations
adjusted to [(0, 0)]), and the caller's frames at references 0 and 1 read
back unchanged. -/
theorem c10_caller_frames_never_mutated_witness :
    EvStore.read ⟨[[(0, 1)], [], [(0, 1)], [(0, 0)]]⟩ 0 =
        EvStore.read ⟨[[(0, 1)], []]⟩ 0 ∧
    EvStore.read ⟨[[(0, 1)], [], [(0, 1)], [(0, 0)]]⟩ 1 =
        EvStore.read ⟨[[(0, 1)], []]⟩ 1 :=
  (c10_caller_frames_never_mutated ["pup_l"] sampTwo ⟨[[(0, 1)], []]⟩ 0 1 ["pup_l"]
      (1/10) 1000 1).1 ⟨[[(0, 1)], [], [(0, 1)], [(0, 0)]]⟩ 3 (by decide)

end
